import Mathlib

/-!
Shallow embedding of the Synkuru Stremio addon: the GraphQL query cache and
its key derivation, the rate limiter's failure handler, the progress
reconciliation logic (src/lib/anilist.js), the ID resolution layer
(src/lib/id-mapping.js), the durable sqlite mapping store appended to
src/lib/anilist.js, the subtitles handler (src/addon.js) and the fanart logo
picker (src/lib/anilist.js).  Asynchronous JavaScript is modelled as a
cooperative event loop: the synchronous prefix of an async function is one
atomic step, and each promise continuation is a separate step.
-/

namespace Animeo

/-- Association-list lookup: the model of `cache.get(key)` / `cache.has(key)`
on an `lru-cache` instance (TTL expiry is not modelled).  The first binding
of a key wins. -/
def mapGet {A : Type} : List (String × A) → String → Option A
  | [], _ => none
  | (k, v) :: t, key => if k = key then some v else mapGet t key

/-- Remove every binding of a key: the model of `cache.delete(key)`. -/
def mapErase {A : Type} : List (String × A) → String → List (String × A)
  | [], _ => []
  | (k, v) :: t, key => if k = key then mapErase t key else (k, v) :: mapErase t key

/-- Overwrite the binding of a key: the model of `cache.set(key, v)`. -/
def mapSet {A : Type} (l : List (String × A)) (key : String) (v : A) :
    List (String × A) :=
  (key, v) :: mapErase l key

theorem mapGet_mapSet_self {A : Type} (l : List (String × A)) (key : String) (v : A) :
    mapGet (mapSet l key v) key = some v := by
  simp [mapSet, mapGet]

theorem mapGet_mapErase_self {A : Type} (l : List (String × A)) (key : String) :
    mapGet (mapErase l key) key = none := by
  induction l with
  | nil => rfl
  | cons p t ih =>
    obtain ⟨k, v⟩ := p
    by_cases h : k = key
    · simp [mapErase, h, ih]
    · simp [mapErase, h, mapGet, ih]

/-! ## The GraphQL query cache (src/lib/anilist.js, `cache` / `getCachedResult`) -/

/-- An entry of the query cache: while the fetch is in flight the cache holds
the pending promise (identified here by the id the model gave the
computation), after success the resolved data. -/
inductive CacheEntry (V : Type) where
  | pending (pid : Nat)
  | resolvedData (v : V)
deriving DecidableEq

/-- The query cache together with an instrumentation counter for how many
times a compute function (`fetchFn`) has been invoked, and a supply of fresh
promise ids. -/
structure QueryCacheState (V : Type) where
  entries : List (String × CacheEntry V)
  computeCount : Nat
  nextPid : Nat
deriving DecidableEq

/-- One call to `getCachedResult` (src/lib/anilist.js lines 66-88) as a single
atomic step: the function performs no await between the `cache.has` check and
the final `cache.set(key, promise)`, so on the JS event loop the whole body
runs without interleaving.  On a hit it returns the cached entry (resolved or
still pending); on a miss it invokes `fetchFn` (counted by `computeCount`),
allocates a fresh promise id and stores the pending promise in the cache
immediately. -/
def getCachedResultCall {V : Type} (s : QueryCacheState V) (key : String) :
    CacheEntry V × QueryCacheState V :=
  match mapGet s.entries key with
  | some e => (e, s)
  | none =>
    (CacheEntry.pending s.nextPid,
      ⟨mapSet s.entries key (CacheEntry.pending s.nextPid),
        s.computeCount + 1, s.nextPid + 1⟩)

/-- The `.then` continuation of the cached fetch: on success the resolved data
replaces the entry (`cache.set(key, Promise.resolve(data))`). -/
def settleOk {V : Type} (s : QueryCacheState V) (key : String) (v : V) :
    QueryCacheState V :=
  { s with entries := mapSet s.entries key (CacheEntry.resolvedData v) }

/-- The `.catch` continuation of the cached fetch: on failure the entry is
deleted (`cache.delete(key)`) and the error rethrown, so errors are never
cached. -/
def settleErr {V : Type} (s : QueryCacheState V) (key : String) :
    QueryCacheState V :=
  { s with entries := mapErase s.entries key }

/-- N back-to-back calls to `getCachedResult` with one key, none of the
underlying fetches having settled yet: the concurrent-callers scenario. -/
def callsN {V : Type} (s : QueryCacheState V) (key : String) : Nat → QueryCacheState V
  | 0 => s
  | n + 1 => (getCachedResultCall (callsN s key n) key).2

theorem callsN_stable {V : Type} (s : QueryCacheState V) (key : String)
    (hmiss : mapGet s.entries key = none) :
    ∀ n, 1 ≤ n → callsN s key n = (getCachedResultCall s key).2 := by
  intro n hn
  induction n with
  | zero => omega
  | succ m ih =>
    by_cases hm : 1 ≤ m
    · have hstable := ih hm
      show (getCachedResultCall (callsN s key m) key).2 = _
      rw [hstable]
      simp only [getCachedResultCall, hmiss]
      rw [mapGet_mapSet_self]
    · have hm0 : m = 0 := by omega
      subst hm0
      rfl

/-- C1: with the key absent from the cache, N ≥ 1 concurrent calls to
`getCachedResult` before the first fetch settles invoke the compute function
exactly once (the pending promise is stored immediately), and every one of
the N callers receives the same pending promise. -/
theorem getCachedResult_stampede_guard {V : Type} (s : QueryCacheState V)
    (key : String) (n : Nat) (hmiss : mapGet s.entries key = none) (hn : 1 ≤ n) :
    (callsN s key n).computeCount = s.computeCount + 1 ∧
      ∀ k, k < n →
        (getCachedResultCall (callsN s key k) key).1 = CacheEntry.pending s.nextPid := by
  constructor
  · rw [callsN_stable s key hmiss n hn]
    simp only [getCachedResultCall, hmiss]
  · intro k _
    by_cases hk : 1 ≤ k
    · rw [callsN_stable s key hmiss k hk]
      simp only [getCachedResultCall, hmiss]
      rw [mapGet_mapSet_self]
    · have hk0 : k = 0 := by omega
      subst hk0
      show (getCachedResultCall s key).1 = _
      simp only [getCachedResultCall, hmiss]

theorem getCachedResult_stampede_guard_witness :
    (callsN (⟨[], 0, 0⟩ : QueryCacheState Nat) "q" 3).computeCount = 0 + 1 ∧
      (getCachedResultCall (callsN (⟨[], 0, 0⟩ : QueryCacheState Nat) "q" 2) "q").1 =
        CacheEntry.pending 0 :=
  ⟨(getCachedResult_stampede_guard ⟨[], 0, 0⟩ "q" 3 rfl (by decide)).1,
    (getCachedResult_stampede_guard ⟨[], 0, 0⟩ "q" 3 rfl (by decide)).2 2 (by decide)⟩

/-- C8: a failed compute removes its entry from the cache (the error is not
cached), so the key misses afterwards and the next call with that key invokes
the compute function again. -/
theorem failed_compute_not_cached {V : Type} (s : QueryCacheState V) (key : String) :
    mapGet (settleErr s key).entries key = none ∧
      (getCachedResultCall (settleErr s key) key).2.computeCount = s.computeCount + 1 := by
  have h1 : mapGet (mapErase s.entries key) key = none :=
    mapGet_mapErase_self s.entries key
  constructor
  · simpa [settleErr] using h1
  · simp [getCachedResultCall, settleErr, h1]

/-! ## Cache key derivation (src/lib/anilist.js, `getCacheKey`) -/

/-- A JSON-serialisable JS value as the code passes in GraphQL `variables`.
The repository's variable objects are flat (numbers, strings, booleans and
arrays of strings, e.g. `status: ["CURRENT", "REPEATING"]`), so neither
nested objects nor arrays of non-strings are modelled. -/
inductive JsValue where
  | str (s : String)
  | num (n : Int)
  | boolean (b : Bool)
  | arr (elems : List String)
deriving DecidableEq

/-- JSON string escaping as `JSON.stringify` performs it, covering the
characters occurring in this repository's queries and variables (quote,
backslash, newline, tab). -/
def jsonEscapeChar (c : Char) : List Char :=
  if c = '"' then ['\\', '"']
  else if c = '\\' then ['\\', '\\']
  else if c = '\n' then ['\\', 'n']
  else if c = '\t' then ['\\', 't']
  else [c]

/-- A JSON string literal with its surrounding quotes. -/
def jsonQuote (s : String) : String :=
  ⟨'"' :: (s.data.map jsonEscapeChar).flatten ++ ['"']⟩

/-- Serialisation of one JS value, as `JSON.stringify` renders it. -/
def jsonOfValue : JsValue → String
  | .str s => jsonQuote s
  | .num n => toString n
  | .boolean b => if b then "true" else "false"
  | .arr es => "[" ++ String.intercalate "," (es.map jsonQuote) ++ "]"

/-- `JSON.stringify(obj, keys)` with a replacer array: the serialised
properties are exactly the replacer's keys, in replacer order, each skipped
when the object has no such property (ECMA-262 SerializeJSONObject with a
PropertyList). -/
def stringifyWithKeys (obj : List (String × JsValue)) (keys : List String) : String :=
  "\x7b" ++
    String.intercalate ","
      (keys.filterMap fun k =>
        (mapGet obj k).map fun v => jsonQuote k ++ ":" ++ jsonOfValue v) ++
    "\x7d"

/-- The keys of a JS object in insertion order (`Object.keys`). -/
def objKeys (obj : List (String × JsValue)) : List String := obj.map Prod.fst

/-- `getCacheKey` (src/lib/anilist.js lines 58-63): serialise the variables
with their keys sorted (`JSON.stringify(variables, Object.keys(variables).sort())`),
then wrap query and serialised variables in an outer `JSON.stringify`.
`variables` is `none` exactly when the JS value is falsy (null/undefined). -/
def getCacheKey (query : String) (vars : Option (List (String × JsValue))) :
    String :=
  let sortedVars : String :=
    match vars with
    | some v => stringifyWithKeys v (List.insertionSort (fun a b => a ≤ b) (objKeys v))
    | none => ""
  "\x7b\"query\":" ++ jsonQuote query ++ ",\"variables\":" ++ jsonQuote sortedVars ++ "\x7d"

instance : IsAntisymm String (fun a b => a ≤ b) := ⟨fun _ _ => le_antisymm⟩

instance : IsTotal String (fun a b => a ≤ b) := ⟨le_total⟩

instance : IsTrans String (fun a b => a ≤ b) := ⟨fun _ _ _ => le_trans⟩

theorem mapGet_eq_of_perm {A : Type} {a b : List (String × A)} (h : a.Perm b)
    (hnd : (a.map Prod.fst).Nodup) (k : String) : mapGet a k = mapGet b k := by
  induction h with
  | nil => rfl
  | cons x h ih =>
    obtain ⟨kx, vx⟩ := x
    simp only [List.map_cons, List.nodup_cons] at hnd
    simp only [mapGet]
    by_cases hk : kx = k
    · simp [hk]
    · simp only [hk, if_false]
      exact ih hnd.2
  | swap x y l =>
    obtain ⟨kx, vx⟩ := x
    obtain ⟨ky, vy⟩ := y
    simp only [List.map_cons, List.nodup_cons, List.mem_cons] at hnd
    have hxy : ky ≠ kx := fun hcontra => hnd.1 (Or.inl hcontra)
    simp only [mapGet]
    by_cases hk : ky = k
    · subst hk
      simp [hxy.symm]
    · simp [hk]
  | trans h1 h2 ih1 ih2 =>
    have hnd2 := ((h1.map Prod.fst).nodup_iff).mp hnd
    exact (ih1 hnd).trans (ih2 hnd2)

/-- C3: `getCacheKey` is order-independent in the variables object — two
parameter objects with the same field/value bindings, in any field order,
derive the identical cache key, because the keys are sorted before
serialisation. -/
theorem getCacheKey_order_independent (query : String)
    (a b : List (String × JsValue)) (hperm : a.Perm b)
    (hnd : (a.map Prod.fst).Nodup) :
    getCacheKey query (some a) = getCacheKey query (some b) := by
  have hkeys : (objKeys a).Perm (objKeys b) := hperm.map Prod.fst
  have hsorted :
      List.insertionSort (fun x y => x ≤ y) (objKeys a) =
        List.insertionSort (fun x y => x ≤ y) (objKeys b) :=
    List.eq_of_perm_of_sorted
      (((List.perm_insertionSort _ _).trans hkeys).trans
        (List.perm_insertionSort _ _).symm)
      (List.sorted_insertionSort _ _) (List.sorted_insertionSort _ _)
  have hget : ∀ k, mapGet a k = mapGet b k := mapGet_eq_of_perm hperm hnd
  simp only [getCacheKey, hsorted, stringifyWithKeys]
  have hfm :
      (List.insertionSort (fun x y => x ≤ y) (objKeys b)).filterMap
          (fun k => (mapGet a k).map fun v => jsonQuote k ++ ":" ++ jsonOfValue v) =
        (List.insertionSort (fun x y => x ≤ y) (objKeys b)).filterMap
          (fun k => (mapGet b k).map fun v => jsonQuote k ++ ":" ++ jsonOfValue v) := by
    apply List.filterMap_congr
    intro k _
    rw [hget k]
  rw [hfm]

theorem getCacheKey_order_independent_witness :
    getCacheKey "query Viewer" (some [("userId", JsValue.num 5), ("sort", JsValue.str "UPDATED_TIME_DESC")]) =
      getCacheKey "query Viewer" (some [("sort", JsValue.str "UPDATED_TIME_DESC"), ("userId", JsValue.num 5)]) :=
  getCacheKey_order_independent "query Viewer" _ _ (List.Perm.swap _ _ _) (by decide)

/-! ## The rate limiter's failure handler (src/lib/anilist.js, `limiter.on("failed")`) -/

/-- The error a failed job carries into the `limiter.on("failed")` handler:
`status` is the HTTP status of `error.response` when one is attached (`none`
models an error without a response, e.g. a network error or a GraphQL
API-level error thrown from the response body), and `retryAfterSeconds` the
parsed `retry-after` header when present (the source falls back to `"60"`). -/
structure FailedError where
  status : Option Nat
  retryAfterSeconds : Option Nat
deriving DecidableEq

/-- `limiter.on("failed")` (src/lib/anilist.js lines 22-46): for a 429
response the handler returns a retry delay in milliseconds while fewer than 3
retries have been spent, otherwise `null` (bottleneck retries a job exactly
when the handler returns a number). -/
def limiterOnFailed (e : FailedError) (retryCount : Nat) : Option Nat :=
  match e.status with
  | some 429 =>
    let retryAfter := e.retryAfterSeconds.getD 60
    if retryCount < 3 then some (retryAfter * 1000) else none
  | _ => none

theorem limiterOnFailed_some {e : FailedError} {rc : Nat} {d : Nat}
    (h : limiterOnFailed e rc = some d) : e.status = some 429 ∧ rc < 3 := by
  unfold limiterOnFailed at h
  split at h
  · rename_i hs
    refine ⟨hs, ?_⟩
    by_contra hrc
    simp [hrc] at h
  · exact absurd h (by simp)

theorem limiterOnFailed_not429 {e : FailedError} (h : e.status ≠ some 429)
    (rc : Nat) : limiterOnFailed e rc = none := by
  unfold limiterOnFailed
  split
  · rename_i hs
    exact absurd hs h
  · rfl

/-- Executions of a job that fails on every dispatch with the same error:
bottleneck runs the job, hands the failure to the `failed` handler with the
retry count so far, and dispatches the job again exactly when the handler
returned a delay.  The loop is written on explicit fuel; the handler's retry
budget is 3, so a fuel of 4 covers every dispatch a job can see. -/
def jobAttemptsAux (e : FailedError) : Nat → Nat → Nat
  | 0, _ => 1
  | fuel + 1, rc =>
    if (limiterOnFailed e rc).isSome then 1 + jobAttemptsAux e fuel (rc + 1) else 1

/-- Executions of a job first dispatched with `retryCount = rc`. -/
def jobAttempts (e : FailedError) (rc : Nat) : Nat :=
  jobAttemptsAux e (4 - rc) rc

/-- C5: a request failing with an upstream 429 is retried automatically up to
3 times before the failure surfaces (4 executions in total), a request
failing any other way is not retried (1 execution), and the handler grants a
retry delay exactly for a 429 with fewer than 3 retries spent. -/
theorem limiter_retries_429_only (e : FailedError) :
    (e.status = some 429 → jobAttempts e 0 = 4) ∧
      (e.status ≠ some 429 → jobAttempts e 0 = 1) ∧
      ∀ rc, (limiterOnFailed e rc).isSome = true ↔ (e.status = some 429 ∧ rc < 3) := by
  refine ⟨?_, ?_, ?_⟩
  · intro h429
    obtain ⟨st, ra⟩ := e
    simp only [] at h429
    subst h429
    show jobAttemptsAux ⟨some 429, ra⟩ 4 0 = 4
    simp [jobAttemptsAux, limiterOnFailed]
  · intro hother
    have h0 : limiterOnFailed e 0 = none := limiterOnFailed_not429 hother 0
    show jobAttemptsAux e 4 0 = 1
    simp [jobAttemptsAux, h0]
  · intro rc
    constructor
    · intro h
      obtain ⟨d, hd⟩ := Option.isSome_iff_exists.mp h
      exact limiterOnFailed_some hd
    · rintro ⟨h429, hrc⟩
      simp [limiterOnFailed, h429, hrc]

/-! ## Progress reconciliation (src/lib/anilist.js, `updateAnilistProgress`) -/

/-- The data `getAnilistMediaListEntry` assembles for `updateAnilistProgress`:
`currentProgress` is `mediaListEntry?.progress ?? 0`, `currentStatus` the list
status (`none` models a null/absent status), `totalEpisodes` the total
episode count when known, `isMovie` whether `format === "MOVIE"`. -/
structure EntryData where
  currentProgress : Nat
  currentStatus : Option String
  totalEpisodes : Option Nat
  isMovie : Bool
deriving DecidableEq

/-- What `getAnilistMediaListEntry` handed over: `null` (details unavailable),
an object with `notFound: true`, or the entry data. -/
inductive EntryFetch where
  | missing
  | notFoundMedia
  | found (d : EntryData)
deriving DecidableEq

/-- The decision `updateAnilistProgress` reaches: no mutation, or a
`SaveMediaListEntry` mutation with the given progress and status variable.
A status of `none` models `status: undefined`, which `JSON.stringify` omits
from the request body, leaving the remote status untouched. -/
inductive UpdateDecision where
  | noWrite
  | write (progress : Nat) (status : Option String)
deriving DecidableEq

/-- Truthiness of a nullable JS string: null/undefined and the empty string
are falsy. -/
def jsTruthyStr : Option String → Bool
  | none => false
  | some s => s != ""

/-- The status block of `updateAnilistProgress` (src/lib/anilist.js lines
603-615): `completedCond` is the disjunction on line 603, then the two
assignments to the undeclared `newStatus` and the final COMPLETED-demotion
check. -/
def computeNewStatus (completedCond : Bool) (currentStatus prevNewStatus : Option String) :
    Option String :=
  let statusAfterBranches :=
    if completedCond then some "COMPLETED"
    else if jsTruthyStr currentStatus then
      (if currentStatus ≠ some "CURRENT" then currentStatus else prevNewStatus)
    else prevNewStatus
  if currentStatus = some "COMPLETED" ∧ statusAfterBranches ≠ some "COMPLETED"
  then some "CURRENT" else statusAfterBranches

/-- `updateAnilistProgress` (src/lib/anilist.js lines 571-648) as a decision
function.  `newStatus` in the source is an undeclared variable: in sloppy
mode it is a module-global that survives across calls, so the value it holds
on entry (`prevNewStatus`; `none` models undefined, i.e. a status field the
mutation body omits) leaks into the branches that never assign it. -/
def updateAnilistProgress (targetEpisode : Nat) (fetch : EntryFetch)
    (prevNewStatus : Option String) : UpdateDecision :=
  match fetch with
  | .missing => .noWrite
  | .notFoundMedia => .noWrite
  | .found d =>
    let newProgress := if d.isMovie then 1 else targetEpisode
    if newProgress ≤ d.currentProgress then .noWrite
    else if !d.isMovie && (match d.totalEpisodes with
        | some t => decide (t < newProgress)
        | none => false) then .noWrite
    else
      .write newProgress
        (computeNewStatus
          (d.isMovie || (match d.totalEpisodes with
            | some t => decide (t ≤ newProgress)
            | none => false))
          d.currentStatus prevNewStatus)

theorem computeNewStatus_completed (c : Bool) (prev : Option String) :
    computeNewStatus c (some "COMPLETED") prev = some "COMPLETED" := by
  cases c <;> simp [computeNewStatus, jsTruthyStr]

/-- C4: no write is issued when the target progress (1 for a movie, else the
observed episode) is at most the current progress, nor when a multi-unit work
has a known total smaller than the target progress. -/
theorem updateProgress_no_backward_write (targetEpisode t : Nat) (d : EntryData)
    (prev : Option String)
    (h : (if d.isMovie then 1 else targetEpisode) ≤ d.currentProgress ∨
      (d.isMovie = false ∧ d.totalEpisodes = some t ∧
        t < (if d.isMovie then 1 else targetEpisode))) :
    updateAnilistProgress targetEpisode (.found d) prev = .noWrite := by
  rcases h with h1 | ⟨hm, ht, hlt⟩
  · simp only [updateAnilistProgress]
    rw [if_pos h1]
  · rw [hm] at hlt
    simp only [Bool.false_eq_true, if_false] at hlt
    simp [updateAnilistProgress, hm, ht, hlt]

theorem updateProgress_no_backward_write_witness :
    updateAnilistProgress 5 (EntryFetch.found ⟨5, some "CURRENT", some 12, false⟩) none
      = UpdateDecision.noWrite :=
  updateProgress_no_backward_write 5 12 ⟨5, some "CURRENT", some 12, false⟩ none
    (Or.inl (by decide))

/-- C2 (evaluation of the code at the failing input, and the general fact
behind it): a multi-unit entry currently COMPLETED at progress 5 of 12 known
episodes with observed episode 8 is written with status COMPLETED — the
source never demotes COMPLETED to CURRENT, whatever the inputs and whatever
the leaked previous value of the undeclared `newStatus`, because the
status-preserving branch always re-assigns COMPLETED first, making the
demotion branch unreachable. -/
theorem updateProgress_completed_never_demoted :
    updateAnilistProgress 8 (EntryFetch.found ⟨5, some "COMPLETED", some 12, false⟩) none
        = UpdateDecision.write 8 (some "COMPLETED") ∧
      ∀ (te p : Nat) (d : EntryData) (prev st : Option String),
        d.currentStatus = some "COMPLETED" →
        updateAnilistProgress te (.found d) prev = .write p st →
        st = some "COMPLETED" := by
  constructor
  · decide
  · intro te p d prev st hcs h
    simp only [updateAnilistProgress, hcs] at h
    split at h
    all_goals
      split at h
      · simp at h
      · split at h
        · simp at h
        · rw [computeNewStatus_completed] at h
          simp only [UpdateDecision.write.injEq] at h
          exact h.2.symm

/-! ## The durable mapping store (sqlite module appended to src/lib/anilist.js) -/

/-- The alternate-scheme columns of the `ids` table: `kitsu INTEGER UNIQUE,
imdb TEXT UNIQUE, thetvdb INTEGER UNIQUE, themoviedb INTEGER UNIQUE`. -/
inductive Scheme where
  | kitsu
  | imdb
  | thetvdb
  | themoviedb
deriving DecidableEq

/-- One row of the `ids` table: the canonical id (`anilist INTEGER PRIMARY
KEY NOT NULL`) and one nullable, per-table-unique value per alternate scheme.
SQLite stores the columns with mere affinity, so all four are modelled over
one value type `V`. -/
structure IdRow (V : Type) where
  anilist : Nat
  kitsu : Option V
  imdb : Option V
  thetvdb : Option V
  themoviedb : Option V
deriving DecidableEq

/-- Read an alternate-scheme column of a row. -/
def getCol {V : Type} (r : IdRow V) : Scheme → Option V
  | .kitsu => r.kitsu
  | .imdb => r.imdb
  | .thetvdb => r.thetvdb
  | .themoviedb => r.themoviedb

/-- Write an alternate-scheme column of a row. -/
def setCol {V : Type} (r : IdRow V) : Scheme → Option V → IdRow V
  | .kitsu, v => { r with kitsu := v }
  | .imdb, v => { r with imdb := v }
  | .thetvdb, v => { r with thetvdb := v }
  | .themoviedb, v => { r with themoviedb := v }

theorem getCol_setCol_self {V : Type} (r : IdRow V) (s : Scheme) (v : Option V) :
    getCol (setCol r s v) s = v := by
  cases s <;> rfl

theorem getCol_setCol_ne {V : Type} (r : IdRow V) (s s2 : Scheme) (v : Option V)
    (h : s2 ≠ s) : getCol (setCol r s v) s2 = getCol r s2 := by
  cases s <;> cases s2 <;> first | rfl | exact absurd rfl h

theorem anilist_setCol {V : Type} (r : IdRow V) (s : Scheme) (v : Option V) :
    (setCol r s v).anilist = r.anilist := by
  cases s <;> rfl

/-- The row an `INSERT INTO ids (anilist, source) VALUES (?, ?)` creates: the
canonical id, the source column, every other column NULL. -/
def newRow {V : Type} (a : Nat) (s : Scheme) (v : V) : IdRow V :=
  setCol ⟨a, none, none, none, none⟩ s (some v)

/-- The non-NULL values an alternate-scheme column currently holds. -/
def colValues {V : Type} (t : List (IdRow V)) (s : Scheme) : List V :=
  t.filterMap (fun r => getCol r s)

/-- How one statement finished: success, or a `UNIQUE constraint failed`
error (under which SQLite leaves the statement's effects unapplied). -/
inductive SqlOutcome where
  | okStep
  | uniqueViolation
deriving DecidableEq

/-- The upsert statement of `cacheToDatabase`:
`INSERT INTO ids (anilist, source) VALUES (?, ?) ON CONFLICT(anilist) DO
UPDATE SET source = excluded.source WHERE source IS NULL OR source !=
excluded.source`.  Without a row for the canonical id a plain insert runs,
failing the source column's UNIQUE constraint when the value is already
present; with such a row the conditional update runs, a no-op when the
column already holds the value, and otherwise also subject to the UNIQUE
constraint against every other row. -/
def upsertStep {V : Type} [DecidableEq V] (t : List (IdRow V)) (a : Nat) (v : V)
    (s : Scheme) : SqlOutcome × List (IdRow V) :=
  match t.find? (fun r => r.anilist == a) with
  | none =>
    if v ∈ colValues t s then (.uniqueViolation, t)
    else (.okStep, newRow a s v :: t)
  | some r =>
    if getCol r s = some v then (.okStep, t)
    else if v ∈ colValues (t.filter (fun q => q.anilist != a)) s then
      (.uniqueViolation, t)
    else (.okStep, t.map (fun q => if q.anilist = a then setCol q s (some v) else q))

/-- The valid alternate-scheme column names `cacheToDatabase` accepts. -/
def schemeOfSource : String → Option Scheme := fun src =>
  if src = "kitsu" then some .kitsu
  else if src = "imdb" then some .imdb
  else if src = "thetvdb" then some .thetvdb
  else if src = "themoviedb" then some .themoviedb
  else none

/-- `cacheToDatabase` (sqlite module appended to src/lib/anilist.js, lines
779-818): an invalid source column rejects; a `UNIQUE constraint failed`
error from the upsert is logged and the promise resolves anyway (the
existing mapping is authoritative); any other outcome resolves with the
updated table. -/
def cacheToDatabase {V : Type} [DecidableEq V] (t : List (IdRow V)) (anilistId : Nat)
    (externalId : V) (source : String) : Except String (List (IdRow V)) :=
  match schemeOfSource source with
  | none => .error "Invalid source column"
  | some s =>
    match upsertStep t anilistId externalId s with
    | (.uniqueViolation, t2) => .ok t2
    | (.okStep, t2) => .ok t2

/-- Per-scheme uniqueness: no two rows hold the same non-NULL value in the
column. -/
def colUnique {V : Type} (t : List (IdRow V)) (s : Scheme) : Prop :=
  t.Pairwise (fun r q => getCol r s = none ∨ getCol r s ≠ getCol q s)

/-- The table's invariants: the primary key is unique, and each
alternate-scheme value maps to at most one canonical id. -/
def tableOk {V : Type} (t : List (IdRow V)) : Prop :=
  (t.map IdRow.anilist).Nodup ∧ ∀ s : Scheme, colUnique t s

theorem mem_colValues {V : Type} {t : List (IdRow V)} {s : Scheme} {v : V} :
    v ∈ colValues t s ↔ ∃ r, r ∈ t ∧ getCol r s = some v := by
  simp [colValues, List.mem_filterMap]

theorem anilist_getElem_ne {V : Type} {t : List (IdRow V)}
    (hnd : (t.map IdRow.anilist).Nodup) {i j : Nat} (hi : i < t.length)
    (hj : j < t.length) (hij : i < j) :
    (t.get ⟨i, hi⟩).anilist ≠ (t.get ⟨j, hj⟩).anilist := by
  have hp : (t.map IdRow.anilist).Pairwise (fun x y => x ≠ y) := hnd
  have hlen : i < (t.map IdRow.anilist).length := by simpa using hi
  have hlen2 : j < (t.map IdRow.anilist).length := by simpa using hj
  have := List.pairwise_iff_getElem.mp hp i j hlen hlen2 hij
  simpa using this

theorem upsert_preserves_tableOk {V : Type} [DecidableEq V] {t t2 : List (IdRow V)}
    {a : Nat} {v : V} {s : Scheme} {o : SqlOutcome}
    (hok : tableOk t) (h : upsertStep t a v s = (o, t2)) : tableOk t2 := by
  unfold upsertStep at h
  rcases hfind : t.find? (fun r => r.anilist == a) with _ | q
  · simp only [hfind] at h
    by_cases hv : v ∈ colValues t s
    · rw [if_pos hv] at h
      cases h
      exact hok
    · rw [if_neg hv] at h
      cases h
      have hfresh : ∀ q2 ∈ t, q2.anilist ≠ a := by
        intro q2 hq2
        have := List.find?_eq_none.mp hfind q2 hq2
        simpa using this
      constructor
      · simp only [List.map_cons, List.nodup_cons]
        refine ⟨?_, hok.1⟩
        simp only [newRow, anilist_setCol]
        intro hmem
        obtain ⟨q2, hq2, hq2a⟩ := List.mem_map.mp hmem
        exact hfresh q2 hq2 hq2a
      · intro s2
        rw [colUnique, List.pairwise_cons]
        refine ⟨?_, hok.2 s2⟩
        intro q2 hq2
        by_cases hs2 : s2 = s
        · subst hs2
          rw [newRow, getCol_setCol_self]
          right
          intro hcontra
          exact hv (mem_colValues.mpr ⟨q2, hq2, hcontra.symm⟩)
        · left
          rw [newRow, getCol_setCol_ne _ _ _ _ hs2]
          cases s2 <;> rfl
  · simp only [hfind] at h
    have hqa : q.anilist = a := by
      have := List.find?_some hfind
      simpa using this
    by_cases h1 : getCol q s = some v
    · rw [if_pos h1] at h
      cases h
      exact hok
    · rw [if_neg h1] at h
      by_cases h2 : v ∈ colValues (t.filter (fun q2 => q2.anilist != a)) s
      · rw [if_pos h2] at h
        cases h
        exact hok
      · rw [if_neg h2] at h
        cases h
        have hother : ∀ q2 ∈ t, q2.anilist ≠ a → getCol q2 s ≠ some v := by
          intro q2 hq2 hq2a hcontra
          refine h2 (mem_colValues.mpr ⟨q2, ?_, hcontra⟩)
          rw [List.mem_filter]
          exact ⟨hq2, by simpa using hq2a⟩
        have hmapanilist :
            (t.map (fun q2 => if q2.anilist = a then setCol q2 s (some v) else q2)).map
                IdRow.anilist = t.map IdRow.anilist := by
          rw [List.map_map]
          apply List.map_congr_left
          intro x _
          by_cases hx : x.anilist = a
          · simp [hx, anilist_setCol]
          · simp [hx]
        constructor
        · rw [hmapanilist]
          exact hok.1
        · intro s2
          rw [colUnique, List.pairwise_iff_getElem]
          intro i j hi hj hij
          have hit : i < t.length := by simpa using hi
          have hjt : j < t.length := by simpa using hj
          rw [List.getElem_map, List.getElem_map]
          have hrel := (List.pairwise_iff_getElem.mp (hok.2 s2)) i j hit hjt hij
          have hne := anilist_getElem_ne hok.1 hit hjt hij
          simp only [List.get_eq_getElem] at hne
          by_cases hs2 : s2 = s
          · subst hs2
            by_cases hxa : t[i].anilist = a
            · have hya : t[j].anilist ≠ a := fun hc => hne (hxa.trans hc.symm)
              simp only [hxa, if_true, hya, if_false, getCol_setCol_self]
              right
              intro hcontra
              exact hother t[j] (List.getElem_mem hjt) hya hcontra.symm
            · by_cases hya : t[j].anilist = a
              · simp only [hxa, if_false, hya, if_true, getCol_setCol_self]
                by_cases hxv : getCol t[i] s2 = some v
                · exact absurd hxv (hother t[i] (List.getElem_mem hit) hxa)
                · right
                  exact hxv
              · simp only [hxa, hya, if_false]
                exact hrel
          · have hgx : ∀ x : IdRow V,
                getCol (if x.anilist = a then setCol x s (some v) else x) s2 = getCol x s2 := by
              intro x
              by_cases hx : x.anilist = a
              · rw [if_pos hx, getCol_setCol_ne _ _ _ _ hs2]
              · rw [if_neg hx]
            rw [hgx, hgx]
            exact hrel

/-- C7: an upsert whose alternate-scheme value is already mapped to a
different canonical id resolves without surfacing an error and leaves the
store entirely unchanged, and every upsert that resolves preserves the
invariant that a given alternate-scheme value maps to at most one canonical
id (together with primary-key uniqueness). -/
theorem cacheToDatabase_conflict_safe {V : Type} [inst : DecidableEq V]
    (t : List (IdRow V)) (a : Nat) (v : V) (src : String) (s : Scheme) (r : IdRow V) :
    (r ∈ t → getCol r s = some v → schemeOfSource src = some s → a ≠ r.anilist →
      cacheToDatabase t a v src = Except.ok t) ∧
    (∀ t2, tableOk t → cacheToDatabase t a v src = Except.ok t2 → tableOk t2) := by
  constructor
  · intro hr hv hsrc hne
    unfold cacheToDatabase upsertStep
    rcases hfind : t.find? (fun q2 => q2.anilist == a) with _ | q
    · have hin : v ∈ colValues t s := mem_colValues.mpr ⟨r, hr, hv⟩
      simp only [hsrc, hfind, if_pos hin]
    · have hqa : q.anilist = a := by
        have := List.find?_some hfind
        simpa using this
      by_cases h1 : getCol q s = some v
      · simp only [hsrc, hfind, if_pos h1]
      · have hin : v ∈ colValues (t.filter (fun q2 => q2.anilist != a)) s := by
          refine mem_colValues.mpr ⟨r, ?_, hv⟩
          rw [List.mem_filter]
          refine ⟨hr, ?_⟩
          simp only [bne_iff_ne, ne_eq]
          exact fun hc => hne (hc ▸ rfl)
        simp only [hsrc, hfind, if_neg h1, if_pos hin]
  · intro t2 hok heq
    unfold cacheToDatabase at heq
    rcases hsrc : schemeOfSource src with _ | s2
    · simp only [hsrc] at heq
      exact absurd heq (by simp)
    · simp only [hsrc] at heq
      rcases hstep : upsertStep t a v s2 with ⟨o, t3⟩
      rw [hstep] at heq
      have ht3 : t2 = t3 := by
        cases o <;> simpa using heq.symm
      subst ht3
      exact upsert_preserves_tableOk hok hstep

/-! ## ID resolution (src/lib/id-mapping.js, `getAnilistId`, lines 23-85) -/

/-- Truthiness of a nullable JS number: null/undefined and 0 are falsy. -/
def jsTruthyNum : Option Nat → Bool
  | none => false
  | some n => n != 0

/-- The lookup tiers `getAnilistId` can consult, in the order the code
reaches them. -/
inductive LookupTier where
  | memCacheTier
  | dbTier
  | kitsuTier
  | armTier
deriving DecidableEq

/-- The environment one call to `getAnilistId` runs in: the in-memory mapping
cache (`anilistIdCache`), the durable-store read (`getFromDatabase` may
reject, which the caller catches and falls through; a null row resolves as
`ok none`), and the two remote lookups, which never throw (both catch
internally and return null). -/
structure IdResolutionEnv where
  memCache : List (String × Nat)
  dbRead : Except Unit (Option Nat)
  kitsuResult : Option Nat
  armResult : Option Nat

/-- What one call observed and did: the returned value, the tiers consulted
in order, and the write-backs to the in-memory cache and to the durable
store (`cacheToDatabase anilistId id source`). -/
structure ResolveOutcome where
  result : Option Nat
  consulted : List LookupTier
  cacheWrites : List (String × Nat)
  dbWrites : List (Nat × String × String)
deriving DecidableEq

/-- The db tier as `getAnilistId` uses it: `getFromDatabase` inside `try`,
where a rejection is logged and falls through and `if (cachedId)` guards the
return, so a null row or a 0 row also falls through. -/
def dbLookup (env : IdResolutionEnv) : Option Nat :=
  match env.dbRead with
  | .ok row => if jsTruthyNum row then row else none
  | .error _ => none

/-- `getAnilistId` (src/lib/id-mapping.js lines 23-85): memory cache, then
durable store, then — only for the kitsu scheme — the Kitsu mapping API,
then the ARM cross-reference API whenever no truthy id was found yet; a
truthy remote result is written back to the cache and the store before being
returned, and a falsy final value is returned as-is (the function never
throws). -/
def getAnilistId (env : IdResolutionEnv) (id : String) (source : String) :
    ResolveOutcome :=
  let cacheKey := source ++ ":" ++ id
  match mapGet env.memCache cacheKey with
  | some cached => ⟨some cached, [.memCacheTier], [], []⟩
  | none =>
    match dbLookup env with
    | some cachedId => ⟨some cachedId, [.memCacheTier, .dbTier], [(cacheKey, cachedId)], []⟩
    | none =>
      let kitsuStep := if source = "kitsu" then env.kitsuResult else none
      let kitsuTrace : List LookupTier := if source = "kitsu" then [.kitsuTier] else []
      let anilistId := if jsTruthyNum kitsuStep then kitsuStep else env.armResult
      let armTrace : List LookupTier := if jsTruthyNum kitsuStep then [] else [.armTier]
      let trace := [LookupTier.memCacheTier, LookupTier.dbTier] ++ kitsuTrace ++ armTrace
      if jsTruthyNum anilistId then
        ⟨anilistId, trace, [(cacheKey, anilistId.getD 0)], [(anilistId.getD 0, id, source)]⟩
      else
        ⟨anilistId, trace, [], []⟩

/-- C6: `getAnilistId` consults the in-memory cache, the durable store, then
the remote services — Kitsu first exactly when the scheme is kitsu, ARM as
the general fallback — in that order, returns the first truthy result, write
a remote hit back to both the cache and the store, and yields a falsy
"no mapping found" value with no writes (rather than an error) when every
tier comes up empty. -/
theorem getAnilistId_lookup_order (env : IdResolutionEnv) (id source : String) :
    (∀ n, mapGet env.memCache (source ++ ":" ++ id) = some n →
      getAnilistId env id source = ⟨some n, [.memCacheTier], [], []⟩) ∧
    (∀ n, mapGet env.memCache (source ++ ":" ++ id) = none → dbLookup env = some n →
      getAnilistId env id source =
        ⟨some n, [.memCacheTier, .dbTier], [(source ++ ":" ++ id, n)], []⟩) ∧
    (∀ n, mapGet env.memCache (source ++ ":" ++ id) = none → dbLookup env = none →
      source = "kitsu" → env.kitsuResult = some n → n ≠ 0 →
      getAnilistId env id source =
        ⟨some n, [.memCacheTier, .dbTier, .kitsuTier], [(source ++ ":" ++ id, n)],
          [(n, id, source)]⟩) ∧
    (∀ n, mapGet env.memCache (source ++ ":" ++ id) = none → dbLookup env = none →
      source ≠ "kitsu" → env.armResult = some n → n ≠ 0 →
      getAnilistId env id source =
        ⟨some n, [.memCacheTier, .dbTier, .armTier], [(source ++ ":" ++ id, n)],
          [(n, id, source)]⟩) ∧
    (∀ n, mapGet env.memCache (source ++ ":" ++ id) = none → dbLookup env = none →
      source = "kitsu" → jsTruthyNum env.kitsuResult = false →
      env.armResult = some n → n ≠ 0 →
      getAnilistId env id source =
        ⟨some n, [.memCacheTier, .dbTier, .kitsuTier, .armTier],
          [(source ++ ":" ++ id, n)], [(n, id, source)]⟩) ∧
    (mapGet env.memCache (source ++ ":" ++ id) = none → dbLookup env = none →
      jsTruthyNum (if source = "kitsu" then env.kitsuResult else none) = false →
      jsTruthyNum env.armResult = false →
      jsTruthyNum (getAnilistId env id source).result = false ∧
        (getAnilistId env id source).cacheWrites = [] ∧
        (getAnilistId env id source).dbWrites = []) := by
  refine ⟨?_, ?_, ?_, ?_, ?_, ?_⟩
  · intro n hmem
    simp [getAnilistId, hmem]
  · intro n hmem hdb
    simp [getAnilistId, hmem, hdb]
  · intro n hmem hdb hsrc hk hn
    subst hsrc
    have hmem2 : mapGet env.memCache ("kitsu:" ++ id) = none := hmem
    have hkt : jsTruthyNum (some n) = true := by simp [jsTruthyNum, hn]
    simp [getAnilistId, hmem2, hdb, hk, hkt]
  · intro n hmem hdb hsrc harm hn
    have hkf : jsTruthyNum none = false := rfl
    have hat : jsTruthyNum (some n) = true := by simp [jsTruthyNum, hn]
    simp [getAnilistId, hmem, hdb, hsrc, harm, hkf, hat]
  · intro n hmem hdb hsrc hk harm hn
    subst hsrc
    have hmem2 : mapGet env.memCache ("kitsu:" ++ id) = none := hmem
    have hat : jsTruthyNum (some n) = true := by simp [jsTruthyNum, hn]
    simp [getAnilistId, hmem2, hdb, hk, harm, hat]
  · intro hmem hdb hk harm
    refine ⟨?_, ?_, ?_⟩ <;> simp [getAnilistId, hmem, hdb, hk, harm]

/-! ## The subtitles handler (src/addon.js, `defineSubtitlesHandler`, lines 91-173) -/

/-- The handler's reply to the host: the SDK promise resolves with a
response object, or rejects with an error. -/
inductive HandlerOutcome where
  | rejected (msg : String)
  | resolvedSubtitles (subtitles : List String)
deriving DecidableEq

/-- `builder.defineSubtitlesHandler` (src/addon.js lines 91-173).  A falsy
token rejects before any work.  The rest of the body — id parsing, ID
resolution, the `handleWatchedEpisode` synchronisation — runs inside one
`try` whose `catch` only logs, and the handler then always returns
`Promise.resolve({ subtitles: [] })`; `tryBlock` stands for that body's
outcome (`Except.error` when any awaited call in it throws). -/
def subtitlesHandler (token : Option String) (tryBlock : Except String Unit) :
    HandlerOutcome :=
  if !jsTruthyStr token then
    .rejected "Anilist token not configured."
  else
    match tryBlock with
    | .ok _ => .resolvedSubtitles []
    | .error _ => .resolvedSubtitles []

/-- C9 (counterexample): a watch-event request with no token configured is
rejected, not acknowledged with empty success. -/
theorem subtitlesHandler_rejects_without_token :
    subtitlesHandler none (Except.ok ()) =
      HandlerOutcome.rejected "Anilist token not configured." := by
  decide

/-- C9 (amended): every watch-event request whose configuration carries a
non-empty token is answered with the well-formed empty-success response
(an empty subtitles list) even when the synchronisation attempt fails; only
a request with no configured token is rejected, as a configuration error. -/
theorem subtitlesHandler_token_empty_success (token : String) (htok : token ≠ "")
    (tryBlock : Except String Unit) :
    subtitlesHandler (some token) tryBlock = HandlerOutcome.resolvedSubtitles [] := by
  have ht : jsTruthyStr (some token) = true := by
    simp [jsTruthyStr, htok]
  unfold subtitlesHandler
  rw [ht]
  cases tryBlock <;> rfl

theorem subtitlesHandler_token_empty_success_witness :
    subtitlesHandler (some "anilist-token") (Except.error "sync failed") =
      HandlerOutcome.resolvedSubtitles [] :=
  subtitlesHandler_token_empty_success "anilist-token" (by decide)
    (Except.error "sync failed")

/-! ## The fanart logo picker (src/lib/anilist.js, `logoUrl`, lines 143-154) -/

/-- One fanart.tv logo record: `lang` and `url` as the API returns them.
`none` models an absent property and `some ""` an empty string; both are
falsy in the source's checks.  URLs are lists of characters. -/
structure FanartLogo where
  lang : Option String
  url : Option (List Char)
deriving DecidableEq

/-- The predicate of the `merged.find` call:
`!e?.lang || ["en", "und"].includes(e.lang)`. -/
def preferredLang (e : FanartLogo) : Bool :=
  !jsTruthyStr e.lang || (e.lang == some "en" || e.lang == some "und")

/-- `url.replace(/^http:/, "https:")`: rewrite a leading `http:` scheme. -/
def httpsify (u : List Char) : List Char :=
  if u.take 5 = ['h', 't', 't', 'p', ':'] then
    ['h', 't', 't', 'p', 's', ':'] ++ u.drop 5
  else u

/-- `logoUrl` (src/lib/anilist.js lines 143-154): merge the HD and normal
logo lists (absent lists count as empty), return null when nothing is there,
otherwise pick the first logo with an unset/en/und language, falling back to
the first logo overall, and return its https-rewritten URL, or null when
that logo has no truthy URL. -/
def logoUrl (hd normal : Option (List FanartLogo)) : Option (List Char) :=
  let merged := hd.getD [] ++ normal.getD []
  match merged with
  | [] => none
  | m0 :: _ =>
    let logo :=
      match merged.find? preferredLang with
      | some p => p
      | none => m0
    match logo.url with
    | some u => if u.isEmpty then none else some (httpsify u)
    | none => none

theorem httpsify_no_http_prefix (u : List Char) :
    (httpsify u).take 5 ≠ ['h', 't', 't', 'p', ':'] := by
  unfold httpsify
  split
  · intro hc
    have hr : (['h', 't', 't', 'p', 's', ':'] ++ u.drop 5).take 5 =
        ['h', 't', 't', 'p', 's'] := rfl
    rw [hr] at hc
    exact absurd hc (by decide)
  · assumption

/-- C10: `logoUrl` yields null when both logo lists are empty or absent;
otherwise it yields the URL of the first logo whose language is unset, en or
und, falling back to the first logo overall, with a leading `http:` rewritten
to `https:` — and hence no returned URL ever begins with `http:`. -/
theorem logoUrl_selection_and_https (hd normal : Option (List FanartLogo)) :
    (hd.getD [] ++ normal.getD [] = [] → logoUrl hd normal = none) ∧
    (∀ e u, (hd.getD [] ++ normal.getD []).find? preferredLang = some e →
      e.url = some u → u ≠ [] → logoUrl hd normal = some (httpsify u)) ∧
    (∀ m0 rest u, (hd.getD [] ++ normal.getD []).find? preferredLang = none →
      hd.getD [] ++ normal.getD [] = m0 :: rest →
      m0.url = some u → u ≠ [] → logoUrl hd normal = some (httpsify u)) ∧
    (∀ u, logoUrl hd normal = some u → u.take 5 ≠ ['h', 't', 't', 'p', ':']) := by
  refine ⟨?_, ?_, ?_, ?_⟩
  · intro h
    simp only [logoUrl, h]
  · intro e u hfind hu hne
    cases hm : hd.getD [] ++ normal.getD [] with
    | nil =>
      rw [hm] at hfind
      exact absurd hfind (by simp)
    | cons m0 rest =>
      rw [hm] at hfind
      simp only [logoUrl, hm, hfind, hu]
      rw [if_neg (by simpa using hne)]
  · intro m0 rest u hfind hm hu hne
    rw [hm] at hfind
    simp only [logoUrl, hm, hfind, hu]
    rw [if_neg (by simpa using hne)]
  · intro u hu
    unfold logoUrl at hu
    rcases hm : hd.getD [] ++ normal.getD [] with _ | ⟨m0, rest⟩
    · rw [hm] at hu
      exact absurd hu (by simp)
    · rw [hm] at hu
      rcases hfind : (m0 :: rest).find? preferredLang with _ | e
      · simp only [hfind] at hu
        rcases hurl : m0.url with _ | w
        · simp only [hurl] at hu
          exact absurd hu (by simp)
        · simp only [hurl] at hu
          by_cases hw : w.isEmpty
          · rw [if_pos hw] at hu
            exact absurd hu (by simp)
          · rw [if_neg hw] at hu
            have := Option.some.inj hu
            rw [← this]
            exact httpsify_no_http_prefix w
      · simp only [hfind] at hu
        rcases hurl : e.url with _ | w
        · simp only [hurl] at hu
          exact absurd hu (by simp)
        · simp only [hurl] at hu
          by_cases hw : w.isEmpty
          · rw [if_pos hw] at hu
            exact absurd hu (by simp)
          · rw [if_neg hw] at hu
            have := Option.some.inj hu
            rw [← this]
            exact httpsify_no_http_prefix w

end Animeo
